import Mathlib

/-!
Verification of the fixed-point arithmetic checker
(`scripts/fixed_point_checker.py`).

The Python source is shallowly embedded below.  Python's unbounded `int`
is modelled as `Int` (bit widths computed by the checker can go negative
through right shifts, so `Nat` would be unfaithful).  Python dictionaries
are modelled as association lists where the most recent insertion is found
first, matching overwrite semantics.  Exceptions are modelled with
`Except`.  The distinguished `FixedPointError("Unknown identifier: ...")`
is modelled structurally as `EvalErr.unknownIdent` carrying the name,
every other exception becomes `EvalErr.parseError`; issue strings are
kept close to the source text but abridged where the original message
interpolates values.
-/

/-- `FixedPointType` dataclass: signedness, total bit width, fractional
bits.  Widths are Python `int`s, hence `Int`. -/
structure FixedPointType where
  signed : Bool
  total_bits : Int
  frac_bits : Int
deriving Repr, DecidableEq

/-- `int_bits` property: `total_bits - frac_bits`. -/
def FixedPointType.int_bits (t : FixedPointType) : Int :=
  t.total_bits - t.frac_bits

/-! ### Decimal strings

Models of Python's `int(s)` on digit strings and `str(n)` / f-string
rendering of an `int`.  `natDecString` is the canonical base-10
rendering (no leading zeros, `"0"` for zero), implemented with explicit
fuel so that it reduces in the kernel; it is related to `Nat.digits`
below. -/

def isDigitChar (c : Char) : Bool :=
  48 ≤ c.toNat && c.toNat ≤ 57

def digitVal (c : Char) : Nat := c.toNat - 48

/-- `int(s, 10)` on a digit string. -/
def digitsToNat (cs : List Char) : Nat :=
  cs.foldl (fun a c => a * 10 + digitVal c) 0

/-- Little-endian base-10 digits of `n`, with fuel. -/
def decRepAux : Nat → Nat → List Nat
  | 0, _ => []
  | fuel + 1, n => if n = 0 then [] else n % 10 :: decRepAux fuel (n / 10)

def digitChar (d : Nat) : Char := Char.ofNat (48 + d)

/-- `str(n)` for a non-negative Python int. -/
def natDecString (n : Nat) : List Char :=
  if n = 0 then ['0'] else ((decRepAux n n).reverse.map digitChar)

/-- `str(i)` for a Python int (negative ints render with a minus sign). -/
def intDecString (i : Int) : List Char :=
  if i < 0 then '-' :: natDecString i.natAbs else natDecString i.toNat

/-- `FixedPointType.__str__`: `f"{sign}{total_bits}F{frac_bits}"`. -/
def FixedPointType.toStr (t : FixedPointType) : String :=
  String.mk ((if t.signed then 'S' else 'U') ::
    (intDecString t.total_bits ++ 'F' :: intDecString t.frac_bits))

/-! ### `FixedPointChecker.parse_type`

Source:
```
match = re.match(r'([SU])(\d+)F(\d+)', type_str)
if not match: raise ValueError(...)
sign_char, total, frac = match.groups()
if sign_char == 'S' and total == frac: raise ValueError(...)
return FixedPointType(sign_char == 'S', int(total), int(frac))
```
Note `total == frac` compares the matched digit *strings*, not their
numeric values, and `re.match` only anchors at the start (trailing
characters are ignored).  Failure (`ValueError`) is modelled as `none`. -/
def parse_type (s : String) : Option FixedPointType :=
  match s.data with
  | [] => none
  | c :: rest =>
    if c = 'S' || c = 'U' then
      let ds1 := rest.takeWhile isDigitChar
      if ds1 = [] then none
      else
        match rest.dropWhile isDigitChar with
        | [] => none
        | f :: r2 =>
          if f = 'F' then
            let ds2 := r2.takeWhile isDigitChar
            if ds2 = [] then none
            else if c = 'S' && ds1 = ds2 then none
            else some ⟨c = 'S', (digitsToNat ds1 : Int), (digitsToNat ds2 : Int)⟩
          else none
    else none

/-! ### Value model of the transformer

`NumberType` subclasses `FixedPointType` and adds the literal value;
`isinstance(x, NumberType)` tests are modelled by the `num` constructor,
`isinstance(x, FixedPointType)` is true of both constructors.  Float
literals (tokens containing a decimal point), whose `NumberType` carries
`None` widths and which no claim exercises, are outside the embedding. -/
inductive EvalType where
  | fp (t : FixedPointType)
  | num (value : Int) (t : FixedPointType)
deriving Repr, DecidableEq

/-- Field access on either a `FixedPointType` or a `NumberType`. -/
def EvalType.toFP : EvalType → FixedPointType
  | .fp t => t
  | .num _ t => t

/-- Structural `__eq__` of `FixedPointType` (a `NumberType` equals a plain
`FixedPointType` with the same three fields). -/
def EvalType.fpEq (a b : EvalType) : Bool :=
  a.toFP = b.toFP

inductive EvalErr where
  | unknownIdent (name : String)
  | parseError (msg : String)
deriving Repr, DecidableEq

/-! ### `FixedPointOps`

`verilog` is the truncating-mode flag (`FixedPointOps.__init__`'s first
argument); `evaluate_expression` always constructs the ops with
`verilog=False`, i.e. strict mode.  Each operation returns the result
type together with the advisory issues it appends, in append order. -/

/-- `FixedPointOps.add_types`. -/
def add_types (verilog : Bool) (l r : FixedPointType) (op : String) :
    FixedPointType × List String :=
  let issues :=
    if l.frac_bits ≠ 0 ∧ r.frac_bits ≠ 0 ∧ 1 < (l.frac_bits - r.frac_bits).natAbs then
      ["Fractional bits do not match for " ++ op]
    else []
  if verilog then
    (⟨l.signed && r.signed, max l.total_bits r.total_bits, l.frac_bits⟩, issues)
  else
    let bits :=
      if l.frac_bits ≠ 0 ∧ r.frac_bits ≠ 0 then max l.total_bits r.total_bits
      else if l.frac_bits ≠ 0 then l.total_bits else r.total_bits
    (⟨l.signed || r.signed, bits, l.frac_bits⟩, issues)

/-- `FixedPointOps.multiply_types` (appends no issues). -/
def multiply_types (verilog : Bool) (l r : FixedPointType) : FixedPointType :=
  let bits :=
    if verilog then max l.total_bits r.total_bits
    else if l.frac_bits ≠ 0 ∧ r.frac_bits ≠ 0 then l.total_bits + r.total_bits
    else if l.frac_bits ≠ 0 then l.total_bits else r.total_bits
  let s := if verilog then l.signed && r.signed else l.signed || r.signed
  let f :=
    if l.frac_bits ≠ 0 ∧ r.frac_bits ≠ 0 then l.frac_bits + r.frac_bits
    else if l.frac_bits ≠ 0 then l.frac_bits else r.frac_bits
  ⟨s, bits, f⟩

/-- `FixedPointOps.divide_types` (appends no issues). -/
def divide_types (verilog : Bool) (l r : FixedPointType) : FixedPointType :=
  let bits :=
    if verilog then max l.total_bits r.total_bits
    else if l.frac_bits ≠ 0 ∧ r.frac_bits ≠ 0 then max l.total_bits r.total_bits
    else if l.frac_bits ≠ 0 then l.total_bits else r.total_bits
  let s := if verilog then l.signed && r.signed else l.signed || r.signed
  let f :=
    if l.frac_bits ≠ 0 ∧ r.frac_bits ≠ 0 then l.frac_bits - r.frac_bits
    else if l.frac_bits ≠ 0 then l.frac_bits else r.frac_bits
  ⟨s, bits, f⟩

/-- `FixedPointOps.shift_left_types`.  The `assert isinstance(right,
NumberType)` failure is an exception, hence `Except`. -/
def shift_left_types (l : FixedPointType) (r : EvalType) :
    Except EvalErr (FixedPointType × List String) :=
  match r with
  | .fp _ => .error (.parseError "Shift amount must be a number")
  | .num v _ =>
    .ok (⟨l.signed, l.total_bits + v, if l.frac_bits = 0 then 0 else l.frac_bits + v⟩,
      if v = 0 then ["Shift by 0 is redundant"] else [])

/-- `FixedPointOps.shift_right_unsigned_types`. -/
def shift_right_unsigned_types (l : FixedPointType) (r : EvalType) :
    Except EvalErr (FixedPointType × List String) :=
  match r with
  | .fp _ => .error (.parseError "Shift amount must be a number")
  | .num v _ =>
    .ok (⟨l.signed, l.total_bits - v, if l.frac_bits = 0 then 0 else l.frac_bits - v⟩,
      (if l.signed then ["unsigned right shift on signed type"] else []) ++
      (if v = 0 then ["Shift by 0 is redundant"] else []))

/-- `FixedPointOps.shift_right_signed_types`. -/
def shift_right_signed_types (l : FixedPointType) (r : EvalType) :
    Except EvalErr (FixedPointType × List String) :=
  match r with
  | .fp _ => .error (.parseError "Shift amount must be a number")
  | .num v _ =>
    .ok (⟨l.signed, l.total_bits - v, if l.frac_bits = 0 then 0 else l.frac_bits - v⟩,
      (if !l.signed then ["Signed right shift on unsigned type"] else []) ++
      (if v = 0 then ["Shift by 0 is redundant"] else []))

/-! ### `FixedPointChecker.check_overflow`

The three issue strings are modelled as tagged values carrying the same
data the source interpolates into the message; `OverflowIssue.render`
recovers a message string. -/
inductive OverflowIssue where
  | width (computedBits declaredBits : Int)
  | frac (computedFrac declaredFrac : Int)
  | sign (computedSigned declaredSigned : Bool)
deriving Repr, DecidableEq

def OverflowIssue.render : OverflowIssue → String
  | .width c d =>
    String.mk (('R' :: "esult width ".data) ++ intDecString c ++
      " much larger than declared ".data ++ intDecString d)
  | .frac c d =>
    String.mk (('F' :: "ractional bits ".data) ++ intDecString c ++
      " != declared ".data ++ intDecString d)
  | .sign c d =>
    "Signedness mismatch: computed " ++ (if c then "True" else "False") ++
      ", declared " ++ (if d then "True" else "False")

/-- `FixedPointChecker.check_overflow(computed, declared)`. -/
def check_overflow (computed declared : FixedPointType) : List OverflowIssue :=
  (if declared.total_bits * 2 < computed.total_bits then
    [.width computed.total_bits declared.total_bits] else []) ++
  (if computed.frac_bits ≠ declared.frac_bits then
    [.frac computed.frac_bits declared.frac_bits] else []) ++
  (if computed.signed ≠ declared.signed then
    (if (computed.signed ∧ ¬declared.signed ∧ computed.total_bits = declared.total_bits + 1)
        ∨ (¬computed.signed ∧ declared.signed ∧ declared.total_bits = computed.total_bits + 1)
     then []
     else [.sign computed.signed declared.signed])
   else [])

/-! ### Expression AST

One constructor per grammar alternative reachable through the LALR
grammar.  Binary chains (`expr`, `term`, `factor` with several
operators) are left folds in the source; they are represented here as
left-nested binary nodes, which compute the same types, with subtree
issues collected before the operator issue of the node that combines
them.  Lark drops the anonymous punctuation tokens (`{`, `,`, `}`,
parentheses), so rule callbacks only ever see the reduced child tuples;
the evaluator below mirrors that. -/

inductive NumBase where
  | b | d | h | sd
deriving Repr, DecidableEq

/-- Numeric literal tokens: `VERILOG_LITERAL` (`\d+'(b|d|h|sd)\w+`) and
`DECIMAL_NUMBER` without a decimal point. -/
inductive Lit where
  | sized (sizeDigits : List Char) (base : NumBase) (payload : List Char)
  | dec (digits : List Char)
deriving Repr, DecidableEq

inductive AddOp where
  | plus | minus
deriving Repr, DecidableEq

inductive MulOp where
  | times | div
deriving Repr, DecidableEq

inductive ShiftOp where
  | shl | shr | shrs
deriving Repr, DecidableEq

def AddOp.str : AddOp → String
  | .plus => "+"
  | .minus => "-"

def ShiftOp.str : ShiftOp → String
  | .shl => "<<"
  | .shr => ">>"
  | .shrs => ">>>"

inductive Expr where
  | num (l : Lit)
  | ident (name : String)
  | typeAnn (tok : String) (e : Expr)
  | typeAtom (tok : String)
  | paren (e : Expr)
  | concat (es : List Expr)
  | repl (count value : Expr)
  | absE (e : Expr)
  | signedE (dollar : Bool) (e : Expr)
  | arrayAccess (name : String) (idx : Expr)
  | bitSlice (name : String) (hi lo : Expr)
  | bitNegate (e : Expr)
  | addE (op : AddOp) (l r : Expr)
  | mulE (op : MulOp) (l r : Expr)
  | shiftE (op : ShiftOp) (l r : Expr)
deriving Repr

/-! ### Literal evaluation (`TypeTransformer.number`, live branch) -/

def apos : Char := Char.ofNat 39

def NumBase.chars : NumBase → List Char
  | .b => ['b']
  | .d => ['d']
  | .h => ['h']
  | .sd => ['s', 'd']

def hexDigitVal (c : Char) : Option Nat :=
  if 48 ≤ c.toNat ∧ c.toNat ≤ 57 then some (c.toNat - 48)
  else if 97 ≤ c.toNat ∧ c.toNat ≤ 102 then some (c.toNat - 87)
  else if 65 ≤ c.toNat ∧ c.toNat ≤ 70 then some (c.toNat - 55)
  else none

def radixDigitVal (radix : Nat) : Char → Option Nat
  | c =>
    match radix, hexDigitVal c with
    | _, none => none
    | 16, some d => some d
    | rdx, some d => if d < rdx then some d else none

/-- `int(s, radix)` on an arbitrary `\w+` payload; `none` models the
`ValueError` on an invalid digit or an empty string. -/
def parseRadix (radix : Nat) (cs : List Char) : Option Nat :=
  if cs = [] then none
  else cs.foldl (fun acc c =>
    match acc, radixDigitVal radix c with
    | some a, some d => some (a * radix + d)
    | _, _ => none) (some 0)

/-- `TypeTransformer.number` on a non-float token: size prefix, base and
payload give a `NumberType`; `sd` reinterprets as two's complement when
the unsigned value exceeds `2^(size-1) - 1`, and a zero `size` makes
Python's `1 << (size - 1)` raise. -/
def numberMethod (l : Lit) : Except EvalErr (EvalType × String) :=
  match l with
  | .dec ds =>
    .ok (.num (digitsToNat ds : Int) ⟨false, 32, 0⟩, String.mk ds)
  | .sized sizeDs base payload =>
    let size : Nat := digitsToNat sizeDs
    let text := String.mk (sizeDs ++ apos :: base.chars ++ payload)
    match base with
    | .h =>
      match parseRadix 16 payload with
      | some v => .ok (.num (v : Int) ⟨false, (size : Int), 0⟩, text)
      | none => .error (.parseError "Unsupported number format")
    | .d =>
      match parseRadix 10 payload with
      | some v => .ok (.num (v : Int) ⟨false, (size : Int), 0⟩, text)
      | none => .error (.parseError "Unsupported number format")
    | .b =>
      match parseRadix 2 payload with
      | some v => .ok (.num (v : Int) ⟨false, (size : Int), 0⟩, text)
      | none => .error (.parseError "Unsupported number format")
    | .sd =>
      match parseRadix 10 payload with
      | some v =>
        if size = 0 then .error (.parseError "Parse error: negative shift count")
        else
          let vAdj : Int :=
            if ((2 ^ (size - 1) : Nat) : Int) - 1 < (v : Int) then
              (v : Int) - ((2 ^ size : Nat) : Int)
            else (v : Int)
          .ok (.num vAdj ⟨true, (size : Int), 0⟩, text)
      | none => .error (.parseError "Unsupported number format")

/-! ### Identifier table -/

abbrev TypeTable := List (String × FixedPointType)

/-- Python dict lookup; insertion is `cons`, so the first hit is the most
recent binding. -/
def lookupType (tbl : TypeTable) (n : String) : Option FixedPointType :=
  (tbl.find? (fun p => p.1 = n)).map (·.2)

/-! ### `TypeTransformer.concatenation`

The source walks its children with
```
i = 0
while i < len(args) - 1:
    <collect args[i]>
    i += 1
    if i < len(args) - 1:
        i += 1   # skip what it believes is a comma token
```
expecting `expr, comma, expr, ..., rbrace` — but Lark has already
filtered the anonymous `,` and `}` tokens, so `args` holds exactly the
reduced element tuples.  The loop therefore collects the elements at
even positions strictly below `len(args) - 1` and treats the others as
punctuation.  `concatKept` reproduces that index set. -/
def concatKept {α : Type} : List α → List α
  | [] => []
  | [_] => []
  | a :: _ :: rest => a :: concatKept rest

/-- The type/text computation of `TypeTransformer.concatenation` over the
collected children: widths summed, sign and frac taken from the last
collected element (`False`/`0` when none is collected). -/
def concatMethod (rs : List (EvalType × String)) : EvalType × String :=
  let kept := concatKept rs
  let total : Int := kept.foldl (fun acc p => acc + p.1.toFP.total_bits) 0
  let lastS : Bool :=
    match kept.getLast? with
    | some p => p.1.toFP.signed
    | none => false
  let lastF : Int :=
    match kept.getLast? with
    | some p => p.1.toFP.frac_bits
    | none => 0
  (.fp ⟨lastS, total, lastF⟩,
    "\x7b" ++ String.intercalate ", " (kept.map (·.2)) ++ "\x7d")

/-- `TypeTransformer.replication`: literal count gives
`count * value.total_bits` with sign/frac from the value, otherwise the
fallback `(value.signed, 32, 0)`.  In the parse tree a `replication`
node is always the sole child of a `concatenation` node, so this result
is subsequently passed through `concatMethod [·]` by the evaluator. -/
def replMethod (c v : EvalType × String) : EvalType × String :=
  let text := "\x7b" ++ c.2 ++ "\x7b" ++ v.2 ++ "\x7d\x7d"
  match c.1 with
  | .num cv _ => (.fp ⟨v.1.toFP.signed, cv * v.1.toFP.total_bits, v.1.toFP.frac_bits⟩, text)
  | .fp _ => (.fp ⟨v.1.toFP.signed, 32, 0⟩, text)

def MulOp.str : MulOp → String
  | .times => "*"
  | .div => "/"

/-- Dispatch of the three `factor` shift operators to their
`FixedPointOps` methods. -/
def shiftFun : ShiftOp -> FixedPointType -> EvalType ->
    Except EvalErr (FixedPointType × List String)
  | .shl => shift_left_types
  | .shr => shift_right_unsigned_types
  | .shrs => shift_right_signed_types

/-! ### Bottom-up evaluation (`TypeTransformer.transform` + rule methods)

The transformer reduces the tree bottom-up; the embedding threads the
`annotation_issues` accumulator explicitly (in append order) and raises
through `Except`.  `IDENT` tokens have a transformer callback, so an
identifier is looked up (and an unknown one raises the distinguished
`FixedPointError`) *before* the enclosing `array_access`/`bit_slice`
rule runs; the `Unknown array` branches of `_handle_array_access` and
`_handle_bit_slice` are consequently unreachable.  The recursion is
fuelled (one unit per tree node) so that it is structural; exhausted
fuel yields a `parseError`, which no expression whose depth is below
the supplied fuel can reach. -/
def evalAux (vg : Bool) : Nat → TypeTable → Expr ⊕ List Expr →
    Except EvalErr (((EvalType × String) ⊕ List (EvalType × String)) × List String)
  | 0, _, _ => .error (.parseError "recursion limit")
  | _ + 1, _, .inr [] => .ok (.inr [], [])
  | f + 1, tbl, .inr (e :: rest) =>
    match evalAux vg f tbl (.inl e) with
    | .error er => .error er
    | .ok (.inr _, _) => .error (.parseError "internal")
    | .ok (.inl r, i1) =>
      match evalAux vg f tbl (.inr rest) with
      | .error er => .error er
      | .ok (.inl _, _) => .error (.parseError "internal")
      | .ok (.inr rs, i2) => .ok (.inr (r :: rs), i1 ++ i2)
  | f + 1, tbl, .inl e =>
    match e with
    | .num l =>
      match numberMethod l with
      | .ok rv => .ok (.inl rv, [])
      | .error er => .error er
    | .ident n =>
      match lookupType tbl n with
      | some t => .ok (.inl (.fp t, n), [])
      | none => .error (.unknownIdent n)
    | .typeAtom tok =>
      match parse_type tok with
      | some t => .ok (.inl (.fp t, tok), [])
      | none => .error (.parseError ("Invalid type format: " ++ tok))
    | .typeAnn tok sub =>
      match parse_type tok with
      | none => .error (.parseError ("Invalid type format: " ++ tok))
      | some declared =>
        match evalAux vg f tbl (.inl sub) with
        | .error er => .error er
        | .ok (.inr _, _) => .error (.parseError "internal")
        | .ok (.inl (sv, stext), iss) =>
          match sv with
          | .num _ _ => .ok (.inl (.fp declared, tok ++ " " ++ stext), iss)
          | .fp st =>
            if declared ≠ st then
              .ok (.inl (.fp st, tok ++ " " ++ stext),
                iss ++ ["Type annotation mismatch for " ++ stext ++ ": declared " ++
                  declared.toStr ++ ", computed " ++ st.toStr])
            else .ok (.inl (.fp st, tok ++ " " ++ stext), iss)
    | .paren sub =>
      match evalAux vg f tbl (.inl sub) with
      | .error er => .error er
      | .ok (.inr _, _) => .error (.parseError "internal")
      | .ok (.inl (sv, stext), iss) => .ok (.inl (sv, "(" ++ stext ++ ")"), iss)
    | .concat es =>
      match evalAux vg f tbl (.inr es) with
      | .error er => .error er
      | .ok (.inl _, _) => .error (.parseError "internal")
      | .ok (.inr rs, iss) => .ok (.inl (concatMethod rs), iss)
    | .repl c v =>
      match evalAux vg f tbl (.inl c) with
      | .error er => .error er
      | .ok (.inr _, _) => .error (.parseError "internal")
      | .ok (.inl rc, ic) =>
        match evalAux vg f tbl (.inl v) with
        | .error er => .error er
        | .ok (.inr _, _) => .error (.parseError "internal")
        | .ok (.inl rv, iv) => .ok (.inl (concatMethod [replMethod rc rv]), ic ++ iv)
    | .absE sub =>
      match evalAux vg f tbl (.inl sub) with
      | .error er => .error er
      | .ok (.inr _, _) => .error (.parseError "internal")
      | .ok (.inl (sv, stext), iss) =>
        .ok (.inl (.fp ⟨false, sv.toFP.total_bits, sv.toFP.frac_bits⟩, "abs(" ++ stext ++ ")"),
          iss ++ if vg then ["abs is not standard Verilog."] else [])
    | .signedE dollar sub =>
      match evalAux vg f tbl (.inl sub) with
      | .error er => .error er
      | .ok (.inr _, _) => .error (.parseError "internal")
      | .ok (.inl (sv, stext), iss) =>
        .ok (.inl (.fp ⟨true, sv.toFP.total_bits, sv.toFP.frac_bits⟩, "$signed(" ++ stext ++ ")"),
          iss ++ if dollar then [] else ["Use of signed without dollar sign is not standard Verilog."])
    | .arrayAccess n idx =>
      match lookupType tbl n with
      | none => .error (.unknownIdent n)
      | some base =>
        match evalAux vg f tbl (.inl idx) with
        | .error er => .error er
        | .ok (.inr _, _) => .error (.parseError "internal")
        | .ok (.inl (_, itext), iss) =>
          .ok (.inl (.fp base, n ++ "[" ++ itext ++ "]"), iss)
    | .bitSlice n hi lo =>
      match lookupType tbl n with
      | none => .error (.unknownIdent n)
      | some base =>
        match evalAux vg f tbl (.inl hi) with
        | .error er => .error er
        | .ok (.inr _, _) => .error (.parseError "internal")
        | .ok (.inl (hv, htext), ih) =>
          match evalAux vg f tbl (.inl lo) with
          | .error er => .error er
          | .ok (.inr _, _) => .error (.parseError "internal")
          | .ok (.inl (lv, ltext), il) =>
            let text := n ++ "[" ++ htext ++ ":" ++ ltext ++ "]"
            match hv, lv with
            | .num hval _, .num lval _ =>
              if hval - lval + 1 ≤ 0 then
                .error (.parseError "Invalid bit slice width")
              else
                .ok (.inl (.fp ⟨base.signed, hval - lval + 1, base.frac_bits⟩, text), ih ++ il)
            | _, _ =>
              .ok (.inl (.fp ⟨base.signed, base.total_bits, base.frac_bits⟩, text),
                ih ++ il ++ ["Bit slice with non-constant indices: " ++ n])
    | .bitNegate sub =>
      match evalAux vg f tbl (.inl sub) with
      | .error er => .error er
      | .ok (.inr _, _) => .error (.parseError "internal")
      | .ok (.inl (sv, stext), iss) => .ok (.inl (sv, "~" ++ stext), iss)
    | .addE op l r =>
      match evalAux vg f tbl (.inl l) with
      | .error er => .error er
      | .ok (.inr _, _) => .error (.parseError "internal")
      | .ok (.inl (lv, lt), il) =>
        match evalAux vg f tbl (.inl r) with
        | .error er => .error er
        | .ok (.inr _, _) => .error (.parseError "internal")
        | .ok (.inl (rv, rt), ir) =>
          let res := add_types vg lv.toFP rv.toFP op.str
          .ok (.inl (.fp res.1, "(" ++ lt ++ " " ++ op.str ++ " " ++ rt ++ ")"),
            il ++ ir ++ res.2)
    | .mulE op l r =>
      match evalAux vg f tbl (.inl l) with
      | .error er => .error er
      | .ok (.inr _, _) => .error (.parseError "internal")
      | .ok (.inl (lv, lt), il) =>
        match evalAux vg f tbl (.inl r) with
        | .error er => .error er
        | .ok (.inr _, _) => .error (.parseError "internal")
        | .ok (.inl (rv, rt), ir) =>
          let res :=
            match op with
            | .times => multiply_types vg lv.toFP rv.toFP
            | .div => divide_types vg lv.toFP rv.toFP
          .ok (.inl (.fp res, "(" ++ lt ++ " " ++ op.str ++ " " ++ rt ++ ")"), il ++ ir)
    | .shiftE op l r =>
      match evalAux vg f tbl (.inl l) with
      | .error er => .error er
      | .ok (.inr _, _) => .error (.parseError "internal")
      | .ok (.inl (lv, lt), il) =>
        match evalAux vg f tbl (.inl r) with
        | .error er => .error er
        | .ok (.inr _, _) => .error (.parseError "internal")
        | .ok (.inl (rv, rt), ir) =>
          let pre :=
            match rv with
            | .num 0 _ => ["Shift by 0 is redundant: " ++ op.str ++ " 0"]
            | _ => []
          match shiftFun op lv.toFP rv with
          | .error er => .error er
          | .ok (t, isf) =>
            .ok (.inl (.fp t, "(" ++ lt ++ " " ++ op.str ++ " " ++ rt ++ ")"),
              il ++ ir ++ pre ++ isf)

/-- `FixedPointChecker.evaluate_expression`: parse (assumed already done,
the AST is the input), transform, and return
`(computed_type, computed_text, annotation_issues)`.  The checker always
builds its `FixedPointOps` with `verilog=False`. -/
def evaluate_expression (fuel : Nat) (tbl : TypeTable) (e : Expr) :
    Except EvalErr (EvalType × String × List String) :=
  match evalAux false fuel tbl (.inl e) with
  | .ok (.inl (v, t), iss) => .ok (v, t, iss)
  | .ok (.inr _, _) => .error (.parseError "internal")
  | .error er => .error er

/-! ### Declaration parsing and the type database

`parse_reg_declaration` / `parse_localparam_declaration` are regex
matchers; a line is modelled pre-tokenized as the groups those regexes
produce (`none` when the regex does not match).  `annot` is the
`[SU]\d+F\d+` annotation found in the trailing comment, as
`(is_signed, declared_total, frac)`; the declared total is only compared
against the raw width for a printed warning, the stored type always uses
the raw width `msb - lsb + 1`. -/
structure RegParse where
  signedKw : Bool
  msb : Nat
  lsb : Nat
  name : String
  annot : Option (Bool × Nat × Nat)
deriving Repr

/-- `FixedPointChecker.parse_reg_declaration` on a matching line: the
returned type is never `None` (absent annotation defaults to the raw
width, the declared signedness keyword, and zero fractional bits). -/
def parse_reg_declaration (r : RegParse) : String × FixedPointType :=
  let total : Int := (r.msb : Int) - (r.lsb : Int) + 1
  match r.annot with
  | some (s, _, frac) => (r.name, ⟨s, total, (frac : Int)⟩)
  | none => (r.name, ⟨r.signedKw, total, 0⟩)

/-- `FixedPointChecker.parse_localparam_declaration` on a matching line
(same computation as the register case). -/
def parse_localparam_declaration (r : RegParse) : String × FixedPointType :=
  let total : Int := (r.msb : Int) - (r.lsb : Int) + 1
  match r.annot with
  | some (s, _, frac) => (r.name, ⟨s, total, (frac : Int)⟩)
  | none => (r.name, ⟨r.signedKw, total, 0⟩)

/-- One line of the input file, pre-tokenized: the outcome of each of
the regex matches the source applies to a raw line.
`commentParse` is `FixedPointChecker.parse_comment`'s match (declared
type *token* and expression), meaningful when `isComment`;
`assignParse` is `parse_verilog_assignment`'s split `(lhs, rhs)`
together with the `'+'/'-'/'*'/'/' in rhs` character test the analyzer
performs on the raw right-hand-side text. -/
structure SrcLine where
  regDecl : Option RegParse
  localparamDecl : Option RegParse
  isComment : Bool
  commentParse : Option (String × Expr)
  isBlank : Bool
  assignParse : Option (String × Expr × Bool)

/-- Initial `known_types` of `FixedPointChecker.__init__`. -/
def initialTypes : TypeTable := [("PITCH_REF_C2", ⟨false, 7, 0⟩)]

/-- `name.endswith('_8x')`, at code-point level. -/
def strEndsWith (s suffix : String) : Bool :=
  suffix.data.isSuffixOf s.data

/-- `name[:-n]`, at code-point level. -/
def strDropRight (s : String) (n : Nat) : String :=
  String.mk (s.data.take (s.data.length - n))

/-- One line of the `build_type_database` scan: register declarations
add the name to `known_registers` and its type to `known_types` (plus
the base name when the register name ends in `_8x`); localparam
declarations only add to `known_types` (the second, duplicated
localparam block in the source is dead code: it is only reached when
the first matched and `continue`d, or when neither matches). -/
def dbStep (acc : TypeTable × List String) (l : SrcLine) : TypeTable × List String :=
  match l.regDecl with
  | some r =>
    let p := parse_reg_declaration r
    let tbl := (p.1, p.2) :: acc.1
    let regs := p.1 :: acc.2
    if strEndsWith p.1 "_8x" then
      ((strDropRight p.1 3, p.2) :: tbl, strDropRight p.1 3 :: regs)
    else (tbl, regs)
  | none =>
    match l.localparamDecl with
    | some r =>
      let p := parse_localparam_declaration r
      ((p.1, p.2) :: acc.1, acc.2)
    | none => acc

def build_type_database (lines : List SrcLine) : TypeTable × List String :=
  lines.foldl dbStep (initialTypes, [])

/-! ### The analyzer (`FixedPointChecker.analyze_file`) -/

inductive Status where
  | ok
  | error
  | parseFail
  | missingType
  | missingComment
deriving Repr, DecidableEq

/-- The fields of an analyzer result record that the claims mention.
`verilogStatus` is `verilog_status` when the comment was paired with a
following statement, `none` otherwise. -/
structure AnalysisResult where
  status : Status
  verilogStatus : Option Status
  declared : Option FixedPointType
  computed : Option EvalType
  issues : List String
deriving Repr

/-- The line-scan loop of `analyze_file` (index `i`, `last_was_comment`
flag).  The paired statement for an annotation comment is the nearest
following non-blank non-comment line; its evaluation can only yield
`verilog_status` OK / ERROR / PARSE_ERROR.  `parse_comment` calls
`parse_type` *outside* the try/except, so an invalid declared-type token
(e.g. `S8F8`) propagates out of `analyze_file`; that is the `.error`
case of the returned `Except`. -/
def analyzeLoop (fuel : Nat) (tbl : TypeTable) (regs : List String) :
    List SrcLine → Bool → Except String (List AnalysisResult)
  | [], _ => .ok []
  | l :: rest, lastWasComment =>
    if l.isComment then
      match l.commentParse with
      | none => analyzeLoop fuel tbl regs rest false
      | some (tok, e) =>
        match parse_type tok with
        | none => .error ("Invalid type annotation: " ++ tok)
        | some declared =>
          match evaluate_expression fuel tbl e with
          | .ok (t, _, annIss) =>
            let issues := (check_overflow t.toFP declared).map OverflowIssue.render ++ annIss
            let stat := if issues = [] then Status.ok else Status.error
            let res : AnalysisResult :=
              match rest.find? (fun x => !x.isBlank && !x.isComment) with
              | none => ⟨stat, none, some declared, some t, issues⟩
              | some v =>
                match v.assignParse with
                | none => ⟨stat, none, some declared, some t, issues⟩
                | some (_, rhs, _) =>
                  match evaluate_expression fuel tbl rhs with
                  | .ok (vt, _, vIss) =>
                    let vOver := (check_overflow vt.toFP declared).map OverflowIssue.render
                    let vIss2 := vIss ++
                      if ¬ vt.fpEq t then
                        ["Verilog type mismatch: comment computed " ++ t.toFP.toStr ++
                          ", Verilog computed " ++ vt.toFP.toStr]
                      else []
                    ⟨stat, some (if vOver ++ vIss2 = [] then Status.ok else Status.error),
                      some declared, some t, issues⟩
                  | .error _ =>
                    ⟨stat, some Status.parseFail, some declared, some t, issues⟩
            (analyzeLoop fuel tbl regs rest true).map (res :: ·)
          | .error er =>
            let res : AnalysisResult :=
              match er with
              | .unknownIdent n =>
                if regs.contains n then
                  ⟨Status.missingType, none, some declared, none,
                    ["Register " ++ n ++ " is missing type annotation"]⟩
                else
                  ⟨Status.parseFail, none, some declared, none,
                    ["Parse error: Unknown identifier: " ++ n]⟩
              | .parseError m =>
                ⟨Status.parseFail, none, some declared, none, ["Parse error: " ++ m]⟩
            (analyzeLoop fuel tbl regs rest true).map (res :: ·)
    else
      if lastWasComment then analyzeLoop fuel tbl regs rest false
      else
        match l.assignParse with
        | none => analyzeLoop fuel tbl regs rest false
        | some (_, rhs, hasArithChar) =>
          match evaluate_expression fuel tbl rhs with
          | .ok (t, _, iss) =>
            if 0 < t.toFP.frac_bits ∧ hasArithChar then
              (analyzeLoop fuel tbl regs rest false).map
                (⟨Status.missingComment, none, none, some t,
                  iss ++ ["Missing comment for fixed point arithmetic"]⟩ :: ·)
            else analyzeLoop fuel tbl regs rest false
          | .error _ => analyzeLoop fuel tbl regs rest false

/-- `FixedPointChecker.analyze_file`: build the database from the whole
file, then scan. -/
def analyze_file (fuel : Nat) (lines : List SrcLine) :
    Except String (List AnalysisResult) :=
  let db := build_type_database lines
  analyzeLoop fuel db.1 db.2 lines false

/-! ### Call-sequence model for the purity claim

The only attributes `evaluate_expression` touches on the checker are
`self.parser` (rebuilt from the constant grammar on every call before
use) and reads of `known_types`; `known_types`/`known_registers` are
never written.  A call is therefore modelled as returning the result
together with the (unchanged) observable checker state. -/
structure CheckerState where
  known_types : TypeTable
  known_registers : List String

def evaluate_expression_call (fuel : Nat) (c : CheckerState) (e : Expr) :
    Except EvalErr (EvalType × String × List String) × CheckerState :=
  (evaluate_expression fuel c.known_types e, c)

/-- A sequence of `evaluate_expression` calls, threading the checker. -/
def evalCalls (fuel : Nat) : CheckerState → List Expr →
    List (Except EvalErr (EvalType × String × List String))
  | _, [] => []
  | c, e :: es =>
    let r := evaluate_expression_call fuel c e
    r.1 :: evalCalls fuel r.2 es

/-! ## Supporting lemmas -/

theorem takeWhile_append_of_all {p : Char → Bool} (l1 l2 : List Char) (x : Char)
    (h1 : ∀ c ∈ l1, p c = true) (hx : p x = false) :
    (l1 ++ x :: l2).takeWhile p = l1 := by
  induction l1 with
  | nil => simp [List.takeWhile_cons, hx]
  | cons a l ih =>
    have ha : p a = true := h1 a (List.mem_cons_self a l)
    simp only [List.cons_append, List.takeWhile_cons, ha]
    simp [ih fun c hc => h1 c (List.mem_cons_of_mem a hc)]

theorem dropWhile_append_of_all {p : Char → Bool} (l1 l2 : List Char) (x : Char)
    (h1 : ∀ c ∈ l1, p c = true) (hx : p x = false) :
    (l1 ++ x :: l2).dropWhile p = x :: l2 := by
  induction l1 with
  | nil => simp [List.dropWhile_cons, hx]
  | cons a l ih =>
    have ha : p a = true := h1 a (List.mem_cons_self a l)
    simp only [List.cons_append, List.dropWhile_cons, ha]
    simp [ih fun c hc => h1 c (List.mem_cons_of_mem a hc)]

theorem takeWhile_of_all {p : Char → Bool} (l : List Char)
    (h : ∀ c ∈ l, p c = true) : l.takeWhile p = l := by
  induction l with
  | nil => rfl
  | cons a l ih =>
    have ha : p a = true := h a (List.mem_cons_self a l)
    simp [List.takeWhile_cons, ha, ih fun c hc => h c (List.mem_cons_of_mem a hc)]

theorem digitsToNat_foldl (cs : List Char) :
    ∀ acc : Nat, cs.foldl (fun a c => a * 10 + digitVal c) acc =
      acc * 10 ^ cs.length + Nat.ofDigits 10 (cs.map digitVal).reverse := by
  induction cs with
  | nil => intro acc; simp [Nat.ofDigits]
  | cons c cs ih =>
    intro acc
    simp only [List.foldl_cons, ih, List.map_cons, List.reverse_cons, List.length_cons,
      Nat.ofDigits_append, Nat.ofDigits_singleton, List.length_reverse, List.length_map]
    ring

theorem digitVal_lt_10 {c : Char} (h : isDigitChar c = true) : digitVal c < 10 := by
  simp only [isDigitChar, Bool.and_eq_true, decide_eq_true_eq] at h
  simp only [digitVal]
  omega

theorem digitChar_digitVal {c : Char} (h : isDigitChar c = true) :
    digitChar (digitVal c) = c := by
  simp only [isDigitChar, Bool.and_eq_true, decide_eq_true_eq] at h
  have : 48 + digitVal c = c.toNat := by simp only [digitVal]; omega
  rw [digitChar, this, Char.ofNat_toNat]

theorem digitVal_ne_zero {c : Char} (h : isDigitChar c = true) (hc : c ≠ '0') :
    digitVal c ≠ 0 := by
  simp only [isDigitChar, Bool.and_eq_true, decide_eq_true_eq] at h
  intro h0
  apply hc
  have : 48 + digitVal c = c.toNat := by simp only [digitVal]; omega
  have h48 : c.toNat = 48 := by omega
  calc c = Char.ofNat c.toNat := (Char.ofNat_toNat c).symm
    _ = '0' := by rw [h48]

theorem decRepAux_eq_digits : ∀ fuel n : Nat, n ≤ fuel → decRepAux fuel n = Nat.digits 10 n := by
  intro fuel
  induction fuel with
  | zero =>
    intro n hn
    interval_cases n
    simp [decRepAux]
  | succ f ih =>
    intro n hn
    by_cases h0 : n = 0
    · subst h0; simp [decRepAux]
    · have hpos : 0 < n := Nat.pos_of_ne_zero h0
      rw [decRepAux, if_neg h0, Nat.digits_def' (by norm_num : (1:ℕ) < 10) hpos]
      have hlt : n / 10 < n := Nat.div_lt_self hpos (by norm_num)
      rw [ih (n / 10) (by omega)]

/-- A digit string is canonical when it is nonempty, all digits, and has
no superfluous leading zero. -/
def canonDigits (cs : List Char) : Prop :=
  cs ≠ [] ∧ (∀ c ∈ cs, isDigitChar c = true) ∧ (cs.head? = some '0' → cs = ['0'])

instance (cs : List Char) : Decidable (canonDigits cs) := by
  unfold canonDigits
  infer_instance

theorem natDecString_digitsToNat (cs : List Char) (h : canonDigits cs) :
    natDecString (digitsToNat cs) = cs := by
  by_cases h0 : cs = ['0']
  · subst h0; decide
  · obtain ⟨hne, hdig, hhead⟩ := h
    obtain ⟨c, cs', rfl⟩ : ∃ c cs', cs = c :: cs' := by
      cases cs with
      | nil => exact absurd rfl hne
      | cons a l => exact ⟨a, l, rfl⟩
    have hc0 : c ≠ '0' := by
      intro hc
      exact h0 (hhead (by rw [hc]; rfl))
    have hofd : digitsToNat (c :: cs') =
        Nat.ofDigits 10 (((c :: cs').map digitVal).reverse) := by
      have := digitsToNat_foldl (c :: cs') 0
      simpa [digitsToNat] using this
    have hdl : ∀ d ∈ (((c :: cs').map digitVal).reverse), d < 10 := by
      intro d hd
      rw [List.mem_reverse, List.mem_map] at hd
      obtain ⟨x, hx, rfl⟩ := hd
      exact digitVal_lt_10 (hdig x hx)
    have hrev : (((c :: cs').map digitVal).reverse) =
        (cs'.map digitVal).reverse ++ [digitVal c] := by
      simp
    have hlast : ∀ hh : (((c :: cs').map digitVal).reverse) ≠ [],
        (((c :: cs').map digitVal).reverse).getLast hh ≠ 0 := by
      intro hh
      rw [List.getLast_reverse]
      simp only [List.map_cons, List.head_cons]
      exact digitVal_ne_zero (hdig c (List.mem_cons_self c cs')) hc0
    have hd10 : Nat.digits 10 (digitsToNat (c :: cs')) = (((c :: cs').map digitVal).reverse) := by
      rw [hofd]
      exact Nat.digits_ofDigits 10 (by norm_num) _ hdl hlast
    have hn0 : digitsToNat (c :: cs') ≠ 0 := by
      intro hz
      rw [hz] at hd10
      simp at hd10
    rw [natDecString, if_neg hn0, decRepAux_eq_digits _ _ le_rfl, hd10]
    rw [List.reverse_reverse, List.map_map]
    calc (c :: cs').map (digitChar ∘ digitVal)
        = (c :: cs').map id := List.map_congr_left fun x hx => digitChar_digitVal (hdig x hx)
      _ = c :: cs' := List.map_id _

theorem intDecString_natCast (n : Nat) : intDecString (n : Int) = natDecString n := by
  rw [intDecString, if_neg (by omega), Int.toNat_natCast]

/-! ## Claim theorems -/

/-- C3 (counterexample): the round-trip `str(parse_type(s)) == s` fails
on the token `U08F0`, which matches `[SU]\d+F\d+` and parses
successfully, but renders back as `U8F0`. -/
theorem parse_type_roundtrip_cex :
    parse_type "U08F0" = some ⟨false, 8, 0⟩ ∧
    FixedPointType.toStr ⟨false, 8, 0⟩ = "U8F0" ∧ "U8F0" ≠ "U08F0" := by
  refine ⟨by decide, by decide, by decide⟩

/-- C3 (amended): for every type token `[SU]wFf` whose two digit fields
are written canonically (no superfluous leading zeros), a successful
`parse_type` round-trips: `str(parse_type(s)) == s`. -/
theorem parse_type_roundtrip (sign : Char) (ds1 ds2 : List Char) (t : FixedPointType)
    (hs : sign = 'S' ∨ sign = 'U')
    (h1 : canonDigits ds1) (h2 : canonDigits ds2)
    (hp : parse_type (String.mk (sign :: (ds1 ++ 'F' :: ds2))) = some t) :
    t.toStr = String.mk (sign :: (ds1 ++ 'F' :: ds2)) := by
  obtain ⟨hne1, hd1, -⟩ := id h1
  obtain ⟨hne2, hd2, -⟩ := id h2
  have hF : isDigitChar 'F' = false := by decide
  have htw : (ds1 ++ 'F' :: ds2).takeWhile isDigitChar = ds1 :=
    takeWhile_append_of_all _ _ _ hd1 hF
  have hdw : (ds1 ++ 'F' :: ds2).dropWhile isDigitChar = 'F' :: ds2 :=
    dropWhile_append_of_all _ _ _ hd1 hF
  have htw2 : ds2.takeWhile isDigitChar = ds2 := takeWhile_of_all _ hd2
  have hsb : (sign = 'S' || sign = 'U') = true := by
    rcases hs with rfl | rfl <;> decide
  unfold parse_type at hp
  simp only [hsb, if_true, htw, hdw] at hp
  rw [if_neg hne1] at hp
  rw [htw2] at hp
  rw [if_neg hne2] at hp
  by_cases hss : (sign = 'S' && ds1 = ds2) = true
  · rw [if_pos hss] at hp
    exact Option.noConfusion hp
  · rw [if_neg hss] at hp
    simp only [Option.some.injEq] at hp
    subst hp
    rw [FixedPointType.toStr]
    simp only [intDecString_natCast]
    rw [natDecString_digitsToNat ds1 h1, natDecString_digitsToNat ds2 h2]
    rcases hs with rfl | rfl <;> simp

/-- Witness for `parse_type_roundtrip` at the concrete token `U8F0`. -/
theorem parse_type_roundtrip_witness :
    ('U' = 'S' ∨ 'U' = 'U') ∧ canonDigits ['8'] ∧ canonDigits ['0'] ∧
    parse_type (String.mk ('U' :: (['8'] ++ 'F' :: ['0']))) = some ⟨false, 8, 0⟩ ∧
    FixedPointType.toStr ⟨false, 8, 0⟩ = String.mk ('U' :: (['8'] ++ 'F' :: ['0'])) :=
  ⟨Or.inr rfl, by decide, by decide, by decide,
    parse_type_roundtrip 'U' ['8'] ['0'] ⟨false, 8, 0⟩ (Or.inr rfl)
      (by decide) (by decide) (by decide)⟩

/-- C4: the token `S8F8` is rejected as required, but the rejection
compares the *digit strings* `total == frac`, so the equivalent token
`S08F8` is accepted and `parse_type` returns a signed type whose
`total_bits` equals its `frac_bits` — contradicting the claim that it
never does. -/
theorem parse_type_signed_equal_fields :
    parse_type "S8F8" = none ∧ parse_type "S08F8" = some ⟨true, 8, 8⟩ ∧
    (FixedPointType.signed ⟨true, 8, 8⟩ = true ∧
      FixedPointType.total_bits ⟨true, 8, 8⟩ = FixedPointType.frac_bits ⟨true, 8, 8⟩) := by
  refine ⟨by decide, by decide, by decide⟩

/-- C8: `check_overflow` reports the width issue exactly when the
computed width exceeds twice the declared width, the frac issue exactly
when the fractional bits differ, and the signedness issue exactly when
the signed flags differ and the mismatch is not a one-bit implicit
widening in the matching direction. -/
theorem check_overflow_characterization (c d : FixedPointType) :
    (OverflowIssue.width c.total_bits d.total_bits ∈ check_overflow c d ↔
      2 * d.total_bits < c.total_bits) ∧
    (OverflowIssue.frac c.frac_bits d.frac_bits ∈ check_overflow c d ↔
      c.frac_bits ≠ d.frac_bits) ∧
    (OverflowIssue.sign c.signed d.signed ∈ check_overflow c d ↔
      (c.signed ≠ d.signed ∧
        ¬((c.signed ∧ ¬d.signed ∧ c.total_bits = d.total_bits + 1) ∨
          (¬c.signed ∧ d.signed ∧ d.total_bits = c.total_bits + 1)))) := by
  unfold check_overflow
  refine ⟨?_, ?_, ?_⟩ <;>
    · simp only [List.mem_append]
      split_ifs <;> simp_all <;> omega

/-- C7 (counterexample): for `U8F0 + U8F5` the frac mismatch is
5, beyond the tolerance of 1, yet strict-mode `add_types` appends no
advisory issue because it only checks when *both* operands have nonzero
fractional bits. -/
theorem add_types_advisory_cex :
    (add_types false ⟨false, 8, 0⟩ ⟨false, 8, 5⟩ "+").2 = [] ∧
    1 < ((FixedPointType.frac_bits ⟨false, 8, 0⟩) -
      (FixedPointType.frac_bits ⟨false, 8, 5⟩)).natAbs := by
  refine ⟨by decide, by decide⟩

/-- The width rule of strict addition/subtraction as the specification
words it: `max` when both operands are fractional, else the width of
whichever operand is fractional, falling back to the right operand. -/
def strictAddWidthSpec (l r : FixedPointType) : Int :=
  if l.frac_bits ≠ 0 ∧ r.frac_bits ≠ 0 then max l.total_bits r.total_bits
  else if r.frac_bits ≠ 0 then r.total_bits
  else if l.frac_bits ≠ 0 then l.total_bits
  else r.total_bits

/-- C7 (amended): strict-mode `add_types` returns frac `L.frac`, sign
`L.signed ∨ R.signed`, the spec width rule, and appends an advisory
exactly when *both* operands have nonzero frac bits and they differ by
more than the tolerance 1.  In particular `U8F0 + U8F0` gives the right
operand's width with frac 0 and no advisory. -/
theorem add_types_strict_spec (l r : FixedPointType) (op : String) :
    (add_types false l r op).1 =
      ⟨l.signed || r.signed, strictAddWidthSpec l r, l.frac_bits⟩ ∧
    ((add_types false l r op).2 ≠ [] ↔
      (l.frac_bits ≠ 0 ∧ r.frac_bits ≠ 0 ∧ 1 < (l.frac_bits - r.frac_bits).natAbs)) ∧
    add_types false ⟨false, 8, 0⟩ ⟨false, 8, 0⟩ "+" = (⟨false, 8, 0⟩, []) := by
  refine ⟨?_, ?_, by decide⟩
  · unfold add_types strictAddWidthSpec
    by_cases hl : l.frac_bits = 0 <;> by_cases hr : r.frac_bits = 0 <;> simp [hl, hr]
  · unfold add_types
    split_ifs <;> simp_all

/-- C6 (counterexample): the literal `4'sd15` parses to the negative
shift amount −1 (two's-complement reinterpretation), both shifts of
`(x << 4'sd15) >> 4'sd15` evaluate on `x : U8F1`, yet the result is
`U8F0`: the fractional bits are not restored. -/
theorem shift_round_trip_cex :
    (numberMethod (.sized ['4'] .sd ['1', '5'])).map (·.1) =
      .ok (.num (-1) ⟨true, 4, 0⟩) ∧
    (evaluate_expression 10 [("x", ⟨false, 8, 1⟩)]
      (.shiftE .shr (.shiftE .shl (.ident "x") (.num (.sized ['4'] .sd ['1', '5'])))
        (.num (.sized ['4'] .sd ['1', '5'])))).map (·.1) =
      .ok (.fp ⟨false, 8, 0⟩) ∧
    FixedPointType.frac_bits ⟨false, 8, 0⟩ ≠ FixedPointType.frac_bits ⟨false, 8, 1⟩ := by
  refine ⟨rfl, rfl, by decide⟩

/-- C6 (amended): for a *non-negative* literal shift amount `n` and an
operand `x` with non-negative `frac_bits`, `(x << n) >> n` restores
`x` exactly (total bits, frac bits, and sign). -/
theorem shift_left_right_restores (x : FixedPointType) (n : Int) (vt : FixedPointType)
    (hn : 0 ≤ n) (hf : 0 ≤ x.frac_bits) :
    ((shift_left_types x (.num n vt)).bind
      (fun p => shift_right_unsigned_types p.1 (.num n vt))).map (·.1) = .ok x := by
  rcases x with ⟨xs, xt, xf⟩
  have hf' : 0 ≤ xf := hf
  unfold shift_left_types shift_right_unsigned_types
  simp only [Except.bind, Except.map]
  split_ifs <;> (simp_all [FixedPointType.mk.injEq]; try omega)

/-- Witness for `shift_left_right_restores` at `x = U8F3`, `n = 2`. -/
theorem shift_left_right_restores_witness :
    (0 : Int) ≤ 2 ∧ (0 : Int) ≤ FixedPointType.frac_bits ⟨false, 8, 3⟩ ∧
    ((shift_left_types ⟨false, 8, 3⟩ (.num 2 ⟨false, 32, 0⟩)).bind
      (fun p => shift_right_unsigned_types p.1 (.num 2 ⟨false, 32, 0⟩))).map (·.1) =
      .ok ⟨false, 8, 3⟩ :=
  ⟨by decide, by decide,
    shift_left_right_restores ⟨false, 8, 3⟩ 2 ⟨false, 32, 0⟩ (by decide) (by decide)⟩

/-- C1: concatenation does not sum all element widths.  For
`{a, b}` with `a : U4F1` and `b : S8F3` the evaluator returns `U4F1`
(and canonical text `{a}`): the loop in `TypeTransformer.concatenation`
mistakes the second element for a comma token and drops it, because the
punctuation it expects was already filtered from the parse tree.  The
claim would require `S12F3` (width 4+8, sign/frac from `b`).  With four
elements `{a, b, c, d}` the kept elements are the first and third. -/
theorem concatenation_drops_elements :
    evaluate_expression 10 [("a", ⟨false, 4, 1⟩), ("b", ⟨true, 8, 3⟩)]
      (.concat [.ident "a", .ident "b"]) =
      .ok (.fp ⟨false, 4, 1⟩, "\x7ba\x7d", []) ∧
    evaluate_expression 10
      [("a", ⟨false, 4, 1⟩), ("b", ⟨true, 8, 3⟩), ("c", ⟨false, 2, 0⟩), ("d", ⟨true, 16, 5⟩)]
      (.concat [.ident "a", .ident "b", .ident "c", .ident "d"]) =
      .ok (.fp ⟨false, 6, 0⟩, "\x7ba, c\x7d", []) :=
  ⟨rfl, rfl⟩

/-- C2: a replication's computed type is discarded.  `replMethod`
itself computes `{3{x}}` on `x : U8F4` as `U24F4` (count × width,
sign/frac from the value), but the `concatenation` rule that always
wraps a replication node collects none of its single child, so
`evaluate_expression` returns `U0F0` with text `{}` for every
replication. -/
theorem replication_collapses :
    replMethod (.num 3 ⟨false, 32, 0⟩, "3") (.fp ⟨false, 8, 4⟩, "x") =
      (.fp ⟨false, 24, 4⟩, "\x7b3\x7bx\x7d\x7d") ∧
    evaluate_expression 10 [("x", ⟨false, 8, 4⟩)]
      (.repl (.num (.dec ['3'])) (.ident "x")) =
      .ok (.fp ⟨false, 0, 0⟩, "\x7b\x7d", []) :=
  ⟨rfl, rfl⟩

/-- C5: over the well-formed table `x : U8F0` (positive width,
`0 ≤ frac ≤ total`), the expression `{x}` evaluates successfully to a
type with `total_bits = 0`, refuting the invariant that every computed
type has positive `total_bits`. -/
theorem computed_type_zero_width :
    (∀ p ∈ [("x", (⟨false, 8, 0⟩ : FixedPointType))],
      0 < p.2.total_bits ∧ 0 ≤ p.2.frac_bits ∧ p.2.frac_bits ≤ p.2.total_bits) ∧
    evaluate_expression 10 [("x", ⟨false, 8, 0⟩)] (.concat [.ident "x"]) =
      .ok (.fp ⟨false, 0, 0⟩, "\x7b\x7d", []) ∧
    ¬ 0 < FixedPointType.total_bits ⟨false, 0, 0⟩ :=
  ⟨by decide, rfl, by decide⟩

/-- C9: `evaluate_expression` is deterministic and order-independent.
Any sequence of calls on a checker state returns, at each position,
exactly the result of a fresh call on the initial state, and no call
mutates the observable checker state (`known_types` is only read; the
parser is rebuilt from the constant grammar on every call). -/
theorem evaluate_expression_deterministic (fuel : Nat) (c : CheckerState) (es : List Expr) :
    evalCalls fuel c es = es.map (fun e => (evaluate_expression_call fuel c e).1) ∧
    ∀ e : Expr, (evaluate_expression_call fuel c e).2 = c := by
  refine ⟨?_, fun e => rfl⟩
  induction es with
  | nil => rfl
  | cons e es ih => simpa [evalCalls, evaluate_expression_call] using ih

/-! ### Supporting lemmas for the analyzer claim -/

theorem numberMethod_not_unknown (l : Lit) (s : String) :
    numberMethod l ≠ .error (.unknownIdent s) := by
  intro h
  cases l with
  | dec ds => simp [numberMethod] at h
  | sized sizeDs base payload =>
    cases base <;> simp only [numberMethod] at h <;> (repeat' split at h) <;> simp_all

theorem shift_left_not_unknown (l : FixedPointType) (r : EvalType) (s : String) :
    shift_left_types l r ≠ .error (.unknownIdent s) := by
  intro h
  cases r <;> simp [shift_left_types] at h

theorem shift_right_unsigned_not_unknown (l : FixedPointType) (r : EvalType) (s : String) :
    shift_right_unsigned_types l r ≠ .error (.unknownIdent s) := by
  intro h
  cases r <;> simp [shift_right_unsigned_types] at h

theorem shift_right_signed_not_unknown (l : FixedPointType) (r : EvalType) (s : String) :
    shift_right_signed_types l r ≠ .error (.unknownIdent s) := by
  intro h
  cases r <;> simp [shift_right_signed_types] at h

theorem shiftFun_not_unknown (op : ShiftOp) (l : FixedPointType) (r : EvalType) (s : String) :
    shiftFun op l r ≠ .error (.unknownIdent s) := by
  cases op
  · exact shift_left_not_unknown l r s
  · exact shift_right_unsigned_not_unknown l r s
  · exact shift_right_signed_not_unknown l r s

/-- If evaluation fails with the distinguished unknown-identifier error
naming `n`, then `n` has no entry in the identifier table. -/
theorem evalAux_unknown_lookup (vg : Bool) (fuel : Nat) :
    ∀ (tbl : TypeTable) (x : Expr ⊕ List Expr) (n : String),
      evalAux vg fuel tbl x = .error (.unknownIdent n) → lookupType tbl n = none := by
  induction fuel with
  | zero =>
    intro tbl x n h
    rw [evalAux] at h
    injection h with h1
    exact EvalErr.noConfusion h1
  | succ f ih =>
    intro tbl x n h
    rcases x with e | es
    · cases e <;>
        (simp only [evalAux] at h
         repeat' split at h
         all_goals
           first
           | exact Except.noConfusion h
           | (injection h with h1
              first
              | exact EvalErr.noConfusion h1
              | (cases h1
                 first
                 | assumption
                 | exact ih _ _ _ (by assumption)
                 | exact absurd (by assumption) (numberMethod_not_unknown _ _)
                 | exact absurd (by assumption) (shiftFun_not_unknown _ _ _ _))))
    · cases es with
      | nil =>
        rw [evalAux] at h
        exact Except.noConfusion h
      | cons e rest =>
        simp only [evalAux] at h
        repeat' split at h
        all_goals
          first
          | exact Except.noConfusion h
          | (injection h with h1
             first
             | exact EvalErr.noConfusion h1
             | (cases h1
                first
                | assumption
                | exact ih _ _ _ (by assumption)))

theorem evaluate_expression_unknown (fuel : Nat) (tbl : TypeTable) (e : Expr) (n : String)
    (h : evaluate_expression fuel tbl e = .error (.unknownIdent n)) :
    lookupType tbl n = none := by
  unfold evaluate_expression at h
  split at h
  all_goals
    first
    | exact Except.noConfusion h
    | (injection h with h1
       first
       | exact EvalErr.noConfusion h1
       | (cases h1
          exact evalAux_unknown_lookup false fuel tbl _ n (by assumption)))

theorem lookupType_cons (m : String) (t : FixedPointType) (tbl : TypeTable) (n : String) :
    lookupType ((m, t) :: tbl) n = if m = n then some t else lookupType tbl n := by
  by_cases h : m = n <;> simp [lookupType, List.find?_cons, h]

/-- Every name inserted into `known_registers` gets, at the same step, an
entry in `known_types`; and `known_types` only ever grows. -/
theorem dbStep_inv (acc : TypeTable × List String) (l : SrcLine)
    (h : ∀ n, acc.2.contains n = true → (lookupType acc.1 n).isSome = true) :
    ∀ n, (dbStep acc l).2.contains n = true →
      (lookupType (dbStep acc l).1 n).isSome = true := by
  intro n hn
  obtain ⟨reg, lp, c1, c2, c3, c4⟩ := l
  rcases reg with _ | r
  · rcases lp with _ | r
    · simp only [dbStep] at hn ⊢
      exact h n hn
    · simp only [dbStep] at hn ⊢
      rw [lookupType_cons]
      split_ifs with he
      · rfl
      · exact h n hn
  · simp only [dbStep] at hn ⊢
    by_cases h8 : strEndsWith (parse_reg_declaration r).1 "_8x" = true
    · rw [if_pos h8] at hn ⊢
      simp only [List.contains_cons, Bool.or_eq_true, beq_iff_eq] at hn
      rw [lookupType_cons]
      split_ifs with he1
      · rfl
      rw [lookupType_cons]
      split_ifs with he2
      · rfl
      rcases hn with hn | hn | hn
      · exact absurd hn.symm he1
      · exact absurd hn.symm he2
      · exact h n hn
    · rw [if_neg h8] at hn ⊢
      simp only [List.contains_cons, Bool.or_eq_true, beq_iff_eq] at hn
      rw [lookupType_cons]
      split_ifs with he1
      · rfl
      rcases hn with hn | hn
      · exact absurd hn.symm he1
      · exact h n hn

theorem foldl_dbStep_inv (lines : List SrcLine) :
    ∀ acc : TypeTable × List String,
      (∀ n, acc.2.contains n = true → (lookupType acc.1 n).isSome = true) →
      ∀ n, (lines.foldl dbStep acc).2.contains n = true →
        (lookupType (lines.foldl dbStep acc).1 n).isSome = true := by
  induction lines with
  | nil => intro acc h; simpa using h
  | cons l rest ih =>
    intro acc h
    simp only [List.foldl_cons]
    exact ih (dbStep acc l) (dbStep_inv acc l h)

/-- Every known register has an identifier-table entry after
`build_type_database` runs. -/
theorem build_regs_subset (lines : List SrcLine) :
    ∀ n, (build_type_database lines).2.contains n = true →
      (lookupType (build_type_database lines).1 n).isSome = true := by
  unfold build_type_database
  apply foldl_dbStep_inv
  intro n hn
  exact absurd hn (by simp [List.contains])

theorem map_cons_ok {res : AnalysisResult} {x : Except String (List AnalysisResult)}
    {rs : List AnalysisResult} (h : x.map (res :: ·) = .ok rs) :
    ∃ rs', x = .ok rs' ∧ rs = res :: rs' := by
  cases x with
  | error e => simp [Except.map] at h
  | ok v =>
    refine ⟨v, rfl, ?_⟩
    simp only [Except.map, Except.ok.injEq] at h
    exact h.symm

/-- No status produced by the scan loop is `MISSING_TYPE`, provided every
known register has a table entry: the `MISSING_TYPE` branch requires an
unknown-identifier failure naming a known register, which contradicts
the invariant. -/
theorem analyzeLoop_no_missing (fuel : Nat) (tbl : TypeTable) (regs : List String)
    (hinv : ∀ n, regs.contains n = true → (lookupType tbl n).isSome = true) :
    ∀ (lines : List SrcLine) (flag : Bool) (rs : List AnalysisResult),
      analyzeLoop fuel tbl regs lines flag = .ok rs →
      Status.missingType ∉ rs.map AnalysisResult.status := by
  intro lines
  induction lines with
  | nil =>
    intro flag rs h
    simp only [analyzeLoop] at h
    injection h with h1
    subst h1
    simp
  | cons l rest ih =>
    intro flag rs h
    unfold analyzeLoop at h
    repeat' split at h
    all_goals
      first
      | exact Except.noConfusion h
      | exact ih _ _ h
      | (obtain ⟨rs', hx, rfl⟩ := map_cons_ok h
         simp only [List.map_cons, List.mem_cons, not_or]
         refine ⟨?_, ih _ _ hx⟩
         first
         | exact absurd (hinv _ (by assumption))
             (by rw [evaluate_expression_unknown fuel tbl _ _ (by assumption)]; simp)
         | (split <;> simp)
         | simp)

/-- C10: `analyze_file` never produces a result with status
`MISSING_TYPE`.  `parse_reg_declaration` always pairs a recognized
register with a type (defaulting to the raw width, the declared
signedness keyword, and zero fractional bits when the annotation is
absent), so every name in the known-register set also has an
identifier-table entry, and an unknown-identifier failure can never
name a known register. -/
theorem analyze_file_no_missing_type (fuel : Nat) (lines : List SrcLine)
    (rs : List AnalysisResult) (h : analyze_file fuel lines = .ok rs) :
    Status.missingType ∉ rs.map AnalysisResult.status := by
  unfold analyze_file at h
  exact analyzeLoop_no_missing fuel _ _ (build_regs_subset lines) lines false rs h

/-- A small demo file for the analyzer: a register declaration
`reg [7:0] vol; // U8F0`, an annotation comment `// U8F0 r = vol + 1`,
and the paired statement `result <= vol + 1;`. -/
def demoLines : List SrcLine :=
  [ { regDecl := some ⟨false, 7, 0, "vol", some (false, 8, 0)⟩,
      localparamDecl := none, isComment := false, commentParse := none,
      isBlank := false, assignParse := none },
    { regDecl := none, localparamDecl := none, isComment := true,
      commentParse := some ("U8F0", .addE .plus (.ident "vol") (.num (.dec ['1']))),
      isBlank := false, assignParse := none },
    { regDecl := none, localparamDecl := none, isComment := false,
      commentParse := none, isBlank := false,
      assignParse := some ("result", .addE .plus (.ident "vol") (.num (.dec ['1'])), true) } ]

def demoResults : List AnalysisResult :=
  [ { status := Status.error,
      verilogStatus := some Status.error,
      declared := some ⟨false, 8, 0⟩,
      computed := some (.fp ⟨false, 32, 0⟩),
      issues := ["Result width 32 much larger than declared 8"] } ]

/-- Witness for `analyze_file_no_missing_type` on the demo file. -/
theorem analyze_file_no_missing_type_witness :
    analyze_file 10 demoLines = .ok demoResults ∧
    Status.missingType ∉ demoResults.map AnalysisResult.status :=
  ⟨by rfl, analyze_file_no_missing_type 10 demoLines demoResults (by rfl)⟩
